import Mathlib

/-!
# Verification of `hash_bench.py`

Shallow embedding of the hash-benchmark script. Files are modelled as
byte lists (`List ℕ`), the filesystem as a map from paths to contents,
the external digest libraries (`hashlib`, `blake3`) as abstract functions
from the full byte stream fed to the hasher to a hex string, and
wall-clock timing as an oracle giving the elapsed duration of each
(file, strategy, trial) invocation as a rational.
-/

namespace HashBench

/-- The incremental-update protocol of a hash object: the digest depends
only on the concatenation of all bytes passed to `update`.  `chunkFeed n l`
is the byte stream fed when reading a file with contents `l` through a
reusable `n`-byte buffer (`f.readinto(mv)` returns `min n remaining` bytes
until end of file, and `mv[:n]` is passed to `update`). -/
def chunkFeed (n : ℕ) (l : List ℕ) : List ℕ :=
  if h : l = [] ∨ n = 0 then [] else l.take n ++ chunkFeed n (l.drop n)
termination_by l.length
decreasing_by
  push_neg at h
  have h1 : 0 < l.length := List.length_pos.mpr h.1
  have h2 : n ≠ 0 := h.2
  simp only [List.length_drop]
  omega

/-- Reading a file chunk by chunk through a positive-size buffer feeds
exactly the file's bytes, in order. -/
theorem chunkFeed_eq_self (n : ℕ) (hn : 0 < n) (l : List ℕ) : chunkFeed n l = l := by
  rw [chunkFeed]
  split
  · rename_i h
    rcases h with h | h
    · rw [h]
    · omega
  · rw [chunkFeed_eq_self n hn (l.drop n), List.take_append_drop]
termination_by l.length
decreasing_by
  rename_i h
  push_neg at h
  have h1 : 0 < l.length := List.length_pos.mpr h.1
  simp only [List.length_drop]
  omega

/-- `get_hashlib_mv(algorithm)` returns a hasher that reads the file into a
reusable `128 * 1024`-byte buffer and updates the digest per chunk.
`H` is the abstract digest of the given algorithm (a `hashlib.new(algorithm)`
object's hexdigest as a function of all bytes fed to it); `fs` maps a path
to the file's contents. -/
def get_hashlib_mv (H : List ℕ → String) (fs : String → List ℕ)
    (file_path : String) : String :=
  H (chunkFeed (128 * 1024) (fs file_path))

/-- `get_hashlib_naive(algorithm)` returns a hasher that reads the whole
file in one go and feeds it to the digest in a single `update`. -/
def get_hashlib_naive (H : List ℕ → String) (fs : String → List ℕ)
    (file_path : String) : String :=
  H (fs file_path)

/-- `blake3_mmap` hashes the whole file through `update_mmap`: the entire
contents are fed to the BLAKE3 hasher.  `B3` is the abstract BLAKE3 digest. -/
def blake3_mmap (B3 : List ℕ → String) (fs : String → List ℕ)
    (file_path : String) : String :=
  B3 (fs file_path)

/-- `blake3_mv` hashes the file by reading it into a reusable
`128 * 1024`-byte buffer and updating the BLAKE3 hasher per chunk. -/
def blake3_mv (B3 : List ℕ → String) (fs : String → List ℕ)
    (file_path : String) : String :=
  B3 (chunkFeed (128 * 1024) (fs file_path))

/-- The registered strategies: the `hash_functions` dict of the script.
Only the two BLAKE3 entries are live; every `hashlib` entry is commented
out in the source. -/
def hash_functions (B3 : List ℕ → String) (fs : String → List ℕ) :
    List (String × (String → String)) :=
  [("BLAKE3_mmap", blake3_mmap B3 fs),
   ("BLAKE3_mv", blake3_mv B3 fs)]

/-! ## Statistics helpers -/

/-- Arithmetic mean, `sum(times) / len(times)` (rational model of float
arithmetic; Lean's `/ 0 = 0` convention applies only to the empty list). -/
def list_mean (xs : List ℚ) : ℚ := xs.sum / (xs.length : ℚ)

/-- Sum of squared deviations from the mean. -/
def sum_sq_dev (xs : List ℚ) : ℚ :=
  (xs.map (fun x => (x - list_mean xs) ^ 2)).sum

/-- Bessel-corrected sample variance, as the Python `statistics` module
computes it: sum of squared deviations divided by `n - 1`. -/
def sample_variance (xs : List ℚ) : ℚ :=
  sum_sq_dev xs / ((xs.length : ℚ) - 1)

/-- `statistics.stdev`: external library collaborator, modelled from its
documentation as the square root of the Bessel-corrected sample variance. -/
noncomputable def statistics_stdev (xs : List ℚ) : ℝ :=
  Real.sqrt ((sample_variance xs : ℚ) : ℝ)

/-- `calculate_std_dev(numbers)`: returns `0` for fewer than two samples,
otherwise `statistics.stdev(numbers)`. -/
noncomputable def calculate_std_dev (xs : List ℚ) : ℝ :=
  if xs.length < 2 then 0 else statistics_stdev xs

/-- The spec's description of the standard deviation, via the textbook
alternative form of the Bessel-corrected sample standard deviation:
`sqrt((n * sum of squares - (sum)^2) / (n * (n - 1)))`.  Stated from the
spec's words, to be compared with `calculate_std_dev` from the source. -/
noncomputable def spec_sample_std_dev (xs : List ℚ) : ℝ :=
  Real.sqrt ((((xs.length : ℚ) * (xs.map (fun x => x ^ 2)).sum - xs.sum ^ 2) /
      ((xs.length : ℚ) * ((xs.length : ℚ) - 1)) : ℚ) : ℝ)

/-! ## Pretty-printers

Python's `round(x, 2)` rounds to two decimal places half-to-even; the
resulting value is rendered by the f-string with minimal decimal digits
(at least one, so whole numbers print as `1.0`).  Rationals model the
float values; for the quantities involved (integer byte counts divided by
powers of two, and short decimal durations) the float arithmetic is exact. -/

/-- Round a rational to the nearest integer, ties to even (Python `round`). -/
def roundHalfEven (q : ℚ) : ℤ :=
  if Int.fract q < 1 / 2 then ⌊q⌋
  else if 1 / 2 < Int.fract q then ⌊q⌋ + 1
  else if ⌊q⌋ % 2 = 0 then ⌊q⌋ else ⌊q⌋ + 1

/-- Render `n / 100` the way Python prints the rounded float: minimal
decimal digits, at least one digit after the point. -/
def renderCentis (n : ℤ) : String :=
  let sign := if n < 0 then "-" else ""
  let m := n.natAbs
  let ip := m / 100
  let fp := m % 100
  if fp = 0 then sign ++ toString ip ++ ".0"
  else if fp % 10 = 0 then sign ++ toString ip ++ "." ++ toString (fp / 10)
  else if fp < 10 then sign ++ toString ip ++ ".0" ++ toString fp
  else sign ++ toString ip ++ "." ++ toString fp

/-- `f"{round(q, 2)}"`: round to two decimals, render minimally. -/
def renderRound2 (q : ℚ) : String := renderCentis (roundHalfEven (q * 100))

/-- `pretty_file_size(bytes)`. -/
def pretty_file_size (bytes : ℕ) : String :=
  if bytes < 1024 then toString bytes ++ " B"
  else if bytes < 1024 * 1024 then renderRound2 ((bytes : ℚ) / 1024) ++ " KB"
  else if bytes < 1024 * 1024 * 1024 then
    renderRound2 ((bytes : ℚ) / 1024 / 1024) ++ " MB"
  else renderRound2 ((bytes : ℚ) / 1024 / 1024 / 1024) ++ " GB"

/-- `pretty_time(seconds)`. -/
def pretty_time (seconds : ℚ) : String :=
  if seconds < 1 then renderRound2 (seconds * 1000) ++ " ms"
  else if seconds < 60 then renderRound2 seconds ++ " s"
  else if seconds < 3600 then renderRound2 (seconds / 60) ++ " m"
  else renderRound2 (seconds / 3600) ++ " h"

/-! ## The scoped timer

`with Timer() as timer: ...` is modelled by an explicit context-manager
semantics: `__enter__` runs first, the body produces a normal value or an
exception, and `__exit__` runs in either case (the Python with-statement
guarantee), after which an exception propagates. -/

/-- Outcome of a `with`-statement body: a value, or a raised exception. -/
inductive Outcome (α : Type) where
  | ok (val : α)
  | raised
deriving DecidableEq, Repr

/-- The `Timer` object's fields. -/
structure Timer where
  start : ℚ
  stop : ℚ
  interval : ℚ
deriving DecidableEq, Repr

/-- `Timer.__enter__`: record the monotonic clock as `start`. -/
def Timer.enter (now : ℚ) : Timer :=
  { start := now, stop := 0, interval := 0 }

/-- `Timer.__exit__`: record the monotonic clock as `stop` and compute the
elapsed `interval`. -/
def Timer.exit (now : ℚ) (t : Timer) : Timer :=
  { t with stop := now, interval := now - t.start }

/-- Execution of `with Timer() as timer: body`, at monotonic clock readings
`tEnter` (on entry) and `tExit` (on exit).  `__exit__` is applied whether or
not the body raised, and the body's outcome propagates unchanged. -/
def withTimer {α : Type} (tEnter tExit : ℚ) (body : Outcome α) : Outcome α × Timer :=
  let t := Timer.enter tEnter
  let t2 := Timer.exit tExit t
  (body, t2)

/-! ## The benchmark driver

Wall-clock timing is an oracle `elapsed : file path → strategy name →
trial index → ℚ` giving each invocation's `timer.interval`. -/

/-- The hardcoded iteration count. -/
def iterations : ℕ := 5

/-- The hardcoded list of input file paths. -/
def test_cases : List String :=
  ["/media/rhino/invokeai/models/sd-1/embedding/easynegative.safetensors",
   "/media/rhino/invokeai/models/sdxl/main/stable-diffusion-xl-base-1-0/vae/diffusion_pytorch_model.fp16.safetensors",
   "/media/rhino/invokeai/models/sd-1/main/stable-diffusion-v1-5-inpainting/safety_checker/model.fp16.safetensors",
   "/media/rhino/invokeai/models/core/convert/stable-diffusion-2-clip/text_encoder/model.safetensors",
   "/media/rhino/invokeai/models/sdxl/main/dreamshaperXL_v21TurboDPMSDE.safetensors"]

/-- Loop indices of the trial loop: `range(iterations + 1)`. -/
def trialIndices (its : ℕ) : List ℕ := List.range (its + 1)

/-- The per-(file, strategy) recording loop: run every trial index `i`,
append the measured interval unless `i == 1`. -/
def recordTrials (its : ℕ) (elapsed : ℕ → ℚ) : List ℚ :=
  (trialIndices its).foldl
    (fun acc i => if i ≠ 1 then acc ++ [elapsed i] else acc) []

/-- `times[name]` for one file: the recorded samples. -/
def file_times (its : ℕ) (elapsed : String → String → ℕ → ℚ)
    (fp name : String) : List ℚ :=
  recordTrials its (elapsed fp name)

/-- `results[name]`: one recorded-sample list per file, in file order. -/
def results (files : List (String × ℕ)) (its : ℕ)
    (elapsed : String → String → ℕ → ℚ) (name : String) : List (List ℚ) :=
  files.map (fun tc => file_times its elapsed tc.1 name)

/-- `averages[name]`: `sum(times) / len(times)` per file. -/
def averages (files : List (String × ℕ)) (its : ℕ)
    (elapsed : String → String → ℕ → ℚ) (name : String) : List ℚ :=
  (results files its elapsed name).map list_mean

/-- `std_devs[name]`: `calculate_std_dev(times)` per file. -/
noncomputable def std_devs (files : List (String × ℕ)) (its : ℕ)
    (elapsed : String → String → ℕ → ℚ) (name : String) : List ℝ :=
  (results files its elapsed name).map calculate_std_dev

/-- The `AlgoStats` dataclass. -/
structure AlgoStats where
  name : String
  avg : ℚ
  std_dev : ℝ

/-- The `FileStats` dataclass (`stats` is a dict in insertion order). -/
structure FileStats where
  file_path : String
  filesize_bytes : ℕ
  stats : List (String × AlgoStats)

/-- The `stats` list comprehension: one `FileStats` per index `i` of
`test_cases_with_filesize`, with per-strategy `AlgoStats` drawn from
`averages[name][i]` and `std_devs[name][i]`. -/
noncomputable def mkStats (files : List (String × ℕ)) (names : List String)
    (its : ℕ) (elapsed : String → String → ℕ → ℚ) : List FileStats :=
  (List.range files.length).map (fun i =>
    { file_path := (files.getD i ("", 0)).1
      filesize_bytes := (files.getD i ("", 0)).2
      stats := names.map (fun name =>
        (name,
         { name := name
           avg := (averages files its elapsed name).getD i 0
           std_dev := (std_devs files its elapsed name).getD i 0 })) })

/-! ## Fallible control flow

Python evaluation order with exceptions: a list comprehension or loop over
a fallible body aborts at the first failure.  `mapOption` models this. -/

/-- Sequential fallible map: stops at the first failure (first raised
exception propagates, aborting the whole construction). -/
def mapOption {α β : Type} (f : α → Option β) : List α → Option (List β)
  | [] => some []
  | a :: as => (f a).bind (fun b => (mapOption f as).map (fun bs => b :: bs))

/-- `test_cases_with_filesize`: resolve `os.path.getsize` for every path,
before any trial; a missing file raises, aborting the comprehension. -/
def test_cases_with_filesize (getsize : String → Option ℕ) :
    Option (List (String × ℕ)) :=
  mapOption (fun file => (getsize file).map (fun n => (file, n))) test_cases

/-- The nested trial loops with fallible strategy invocations: every trial
of every strategy on every file runs `func(file_path)`; a raised exception
propagates (nothing is caught).  Returns the digests only to witness that
every invocation succeeded. -/
def runTrialsChecked (strategies : List (String × (String → Option String)))
    (its : ℕ) (tcs : List (String × ℕ)) : Option (List (List (List String))) :=
  mapOption (fun tc =>
    mapOption (fun _ =>
      mapOption (fun s => s.2 tc.1) strategies) (trialIndices its)) tcs

/-- The whole run: size resolution first, then the trial loops, then the
stats; any uncaught exception anywhere yields `none` (process aborts). -/
noncomputable def runBench (getsize : String → Option ℕ)
    (strategies : List (String × (String → Option String))) (its : ℕ)
    (elapsed : String → String → ℕ → ℚ) : Option (List FileStats) :=
  (test_cases_with_filesize getsize).bind (fun tcs =>
    (runTrialsChecked strategies its tcs).map (fun _ =>
      mkStats tcs (strategies.map Prod.fst) its elapsed))

/-! ## Theorems -/

/-- C4: for every algorithm (abstract digest `H`), every filesystem and
every path, the chunked-buffer strategy returns the same hex digest as the
whole-file single-shot strategy, and the BLAKE3 chunked strategy returns
the same digest as the BLAKE3 memory-mapped strategy. -/
theorem chunked_and_whole_file_digests_agree :
    ∀ (H B3 : List ℕ → String) (fs : String → List ℕ) (p : String),
      get_hashlib_mv H fs p = get_hashlib_naive H fs p ∧
      blake3_mv B3 fs p = blake3_mmap B3 fs p := by
  intro H B3 fs p
  constructor
  · unfold get_hashlib_mv get_hashlib_naive
    rw [chunkFeed_eq_self _ (by norm_num)]
  · unfold blake3_mv blake3_mmap
    rw [chunkFeed_eq_self _ (by norm_num)]

/-- C3 counterexample: the `hash_functions` registry holds exactly two
entries, named `BLAKE3_mmap` and `BLAKE3_mv`; no MD5/SHA1/SHA256/SHA512
variant and no truncated-read "fast" variant is registered. -/
theorem hash_functions_registry_counterexample :
    ((hash_functions (fun _ => "") (fun _ => [])).map Prod.fst
      = ["BLAKE3_mmap", "BLAKE3_mv"]) ∧
    (hash_functions (fun _ => "") (fun _ => [])).length = 2 := by
  exact ⟨rfl, rfl⟩

/-- C3 (amended): the registered strategies are exactly the BLAKE3
memory-mapped and BLAKE3 chunked variants, in that order; both digest the
file's full contents (the chunked one via the reusable buffer). -/
theorem hash_functions_registry_amended :
    ∀ (B3 : List ℕ → String) (fs : String → List ℕ),
      (hash_functions B3 fs).map Prod.fst = ["BLAKE3_mmap", "BLAKE3_mv"] ∧
      ("BLAKE3_mmap", blake3_mmap B3 fs) ∈ hash_functions B3 fs ∧
      ("BLAKE3_mv", blake3_mv B3 fs) ∈ hash_functions B3 fs ∧
      ∀ p, blake3_mmap B3 fs p = B3 (fs p) ∧ blake3_mv B3 fs p = B3 (fs p) := by
  intro B3 fs
  refine ⟨rfl, List.Mem.head _, List.Mem.tail _ (List.Mem.head _), ?_⟩
  intro p
  refine ⟨rfl, ?_⟩
  unfold blake3_mv
  rw [chunkFeed_eq_self _ (by norm_num)]

/-- Expansion of a sum of squared deviations from any constant `q`. -/
theorem sum_map_sq_sub (q : ℚ) (xs : List ℚ) :
    (xs.map (fun x => (x - q) ^ 2)).sum
      = (xs.map (fun x => x ^ 2)).sum - 2 * q * xs.sum
          + (xs.length : ℚ) * q ^ 2 := by
  induction xs with
  | nil => simp
  | cons a as ih =>
    simp only [List.map_cons, List.sum_cons, List.length_cons, ih]
    push_cast
    ring

/-- The two variance formulas agree for lists of length at least two. -/
theorem sample_variance_alt (xs : List ℚ) (h : 2 ≤ xs.length) :
    sample_variance xs
      = ((xs.length : ℚ) * (xs.map (fun x => x ^ 2)).sum - xs.sum ^ 2) /
          ((xs.length : ℚ) * ((xs.length : ℚ) - 1)) := by
  have hn : (xs.length : ℚ) ≠ 0 := by
    have hpos : xs.length ≠ 0 := by omega
    exact_mod_cast hpos
  have hn1 : (xs.length : ℚ) - 1 ≠ 0 := by
    have h1 : 1 < xs.length := by omega
    have : (1 : ℚ) < (xs.length : ℚ) := by exact_mod_cast h1
    intro hc
    have : (xs.length : ℚ) = 1 := by linarith
    linarith
  unfold sample_variance sum_sq_dev list_mean
  rw [sum_map_sq_sub]
  field_simp
  ring

/-- C2: for every sample list with at least two elements,
`calculate_std_dev` equals the Bessel-corrected sample standard deviation
(stated via the spec's alternative closed form); for fewer than two
elements it is `0`. -/
theorem calculate_std_dev_spec (xs : List ℚ) :
    (2 ≤ xs.length → calculate_std_dev xs = spec_sample_std_dev xs) ∧
    (xs.length < 2 → calculate_std_dev xs = 0) := by
  constructor
  · intro h
    unfold calculate_std_dev statistics_stdev spec_sample_std_dev
    rw [if_neg (by omega)]
    rw [sample_variance_alt xs h]
  · intro h
    unfold calculate_std_dev
    rw [if_pos h]

/-- C2 witness: a concrete three-sample list. -/
theorem calculate_std_dev_spec_witness :
    2 ≤ ([1, 3, 5] : List ℚ).length ∧
      calculate_std_dev [1, 3, 5] = spec_sample_std_dev [1, 3, 5] :=
  ⟨by decide, (calculate_std_dev_spec [1, 3, 5]).1 (by decide)⟩

/-- Banker's rounding is the identity on integers. -/
theorem roundHalfEven_intCast (n : ℤ) : roundHalfEven ((n : ℚ)) = n := by
  unfold roundHalfEven
  rw [Int.fract_intCast, if_pos (by norm_num), Int.floor_intCast]

/-- Evaluation helper: when the scaled argument is a known integer, the
renderer applies to it directly. -/
theorem renderRound2_eq (q : ℚ) (k : ℤ) (h : q * 100 = (k : ℚ)) :
    renderRound2 q = renderCentis k := by
  unfold renderRound2
  rw [h, roundHalfEven_intCast]

/-- Python's banker's rounding is within half a unit of its argument. -/
theorem roundHalfEven_accurate (q : ℚ) : |(roundHalfEven q : ℚ) - q| ≤ 1 / 2 := by
  have h0 : 0 ≤ Int.fract q := Int.fract_nonneg q
  have h1 : Int.fract q < 1 := Int.fract_lt_one q
  have hq : (⌊q⌋ : ℚ) = q - Int.fract q := by
    unfold Int.fract
    ring
  unfold roundHalfEven
  split
  · rename_i h
    rw [hq, abs_le]
    constructor <;> linarith
  · split
    · rename_i h h2
      push_cast
      rw [hq, abs_le]
      constructor <;> linarith
    · rename_i h h2
      have hr : Int.fract q = 1 / 2 := by linarith
      split
      · rw [hq, hr, abs_le]
        constructor <;> linarith
      · push_cast
        rw [hq, hr, abs_le]
        constructor <;> linarith

/-- C5: the byte-size pretty-printer maps the spec's sample inputs to the
spec's sample outputs, follows the 1024-based thresholds with the matching
unit suffix on each branch, and its two-decimal rounding is within
`1/200` of the exact scaled value. -/
theorem pretty_file_size_spec :
    pretty_file_size 0 = "0 B" ∧
    pretty_file_size 1023 = "1023 B" ∧
    pretty_file_size 1024 = "1.0 KB" ∧
    pretty_file_size 1048576 = "1.0 MB" ∧
    pretty_file_size 1073741824 = "1.0 GB" ∧
    (∀ b : ℕ, b < 1024 → pretty_file_size b = toString b ++ " B") ∧
    (∀ b : ℕ, 1024 ≤ b → b < 1024 * 1024 →
      pretty_file_size b = renderRound2 ((b : ℚ) / 1024) ++ " KB") ∧
    (∀ b : ℕ, 1024 * 1024 ≤ b → b < 1024 * 1024 * 1024 →
      pretty_file_size b = renderRound2 ((b : ℚ) / 1024 / 1024) ++ " MB") ∧
    (∀ b : ℕ, 1024 * 1024 * 1024 ≤ b →
      pretty_file_size b = renderRound2 ((b : ℚ) / 1024 / 1024 / 1024) ++ " GB") ∧
    (∀ q : ℚ, |(roundHalfEven (q * 100) : ℚ) / 100 - q| ≤ 1 / 200) := by
  have hKB : pretty_file_size 1024 = "1.0 KB" := by
    unfold pretty_file_size
    rw [if_neg (by norm_num), if_pos (by norm_num),
      renderRound2_eq _ 100 (by push_cast; norm_num)]
    decide
  have hMB : pretty_file_size 1048576 = "1.0 MB" := by
    unfold pretty_file_size
    rw [if_neg (by norm_num), if_neg (by norm_num), if_pos (by norm_num),
      renderRound2_eq _ 100 (by push_cast; norm_num)]
    decide
  have hGB : pretty_file_size 1073741824 = "1.0 GB" := by
    unfold pretty_file_size
    rw [if_neg (by norm_num), if_neg (by norm_num), if_neg (by norm_num),
      renderRound2_eq _ 100 (by push_cast; norm_num)]
    decide
  refine ⟨by decide, by decide, hKB, hMB, hGB, ?_, ?_, ?_, ?_, ?_⟩
  · intro b hb
    unfold pretty_file_size
    rw [if_pos hb]
  · intro b hb1 hb2
    unfold pretty_file_size
    rw [if_neg (by omega), if_pos hb2]
  · intro b hb1 hb2
    unfold pretty_file_size
    rw [if_neg (by omega), if_neg (by omega), if_pos hb2]
  · intro b hb1
    unfold pretty_file_size
    rw [if_neg (by omega), if_neg (by omega), if_neg (by omega)]
  · intro q
    have h := roundHalfEven_accurate (q * 100)
    have heq : (roundHalfEven (q * 100) : ℚ) / 100 - q
        = ((roundHalfEven (q * 100) : ℚ) - q * 100) / 100 := by ring
    rw [heq, abs_div]
    have h100 : |(100 : ℚ)| = 100 := by norm_num
    rw [h100]
    linarith

/-- C5 witness: the branch conjuncts at concrete byte counts. -/
theorem pretty_file_size_spec_witness :
    pretty_file_size 500 = toString 500 ++ " B" ∧
    pretty_file_size 2048 = renderRound2 ((2048 : ℚ) / 1024) ++ " KB" ∧
    pretty_file_size 3145728 = renderRound2 ((3145728 : ℚ) / 1024 / 1024) ++ " MB" ∧
    pretty_file_size 5368709120 =
      renderRound2 ((5368709120 : ℚ) / 1024 / 1024 / 1024) ++ " GB" ∧
    |(roundHalfEven ((157 / 64 : ℚ) * 100) : ℚ) / 100 - 157 / 64| ≤ 1 / 200 := by
  have h := pretty_file_size_spec
  exact ⟨h.2.2.2.2.2.1 500 (by omega),
         h.2.2.2.2.2.2.1 2048 (by omega) (by omega),
         h.2.2.2.2.2.2.2.1 3145728 (by omega) (by omega),
         h.2.2.2.2.2.2.2.2.1 5368709120 (by omega),
         h.2.2.2.2.2.2.2.2.2 (157 / 64)⟩

/-- C6: the duration pretty-printer maps the spec's sample inputs to the
spec's sample outputs and follows the 1 s / 60 s / 3600 s thresholds,
scaling by 1000, 1, 1/60 or 1/3600 with the matching unit suffix. -/
theorem pretty_time_spec :
    pretty_time (1 / 2) = "500.0 ms" ∧
    pretty_time (3 / 2) = "1.5 s" ∧
    pretty_time 90 = "1.5 m" ∧
    pretty_time 7200 = "2.0 h" ∧
    (∀ q : ℚ, q < 1 → pretty_time q = renderRound2 (q * 1000) ++ " ms") ∧
    (∀ q : ℚ, 1 ≤ q → q < 60 → pretty_time q = renderRound2 q ++ " s") ∧
    (∀ q : ℚ, 60 ≤ q → q < 3600 → pretty_time q = renderRound2 (q / 60) ++ " m") ∧
    (∀ q : ℚ, 3600 ≤ q → pretty_time q = renderRound2 (q / 3600) ++ " h") := by
  have hms : pretty_time (1 / 2) = "500.0 ms" := by
    unfold pretty_time
    rw [if_pos (by norm_num), renderRound2_eq _ 50000 (by norm_num)]
    decide
  have hs : pretty_time (3 / 2) = "1.5 s" := by
    unfold pretty_time
    rw [if_neg (by norm_num), if_pos (by norm_num),
      renderRound2_eq _ 150 (by norm_num)]
    decide
  have hm : pretty_time 90 = "1.5 m" := by
    unfold pretty_time
    rw [if_neg (by norm_num), if_neg (by norm_num), if_pos (by norm_num),
      renderRound2_eq _ 150 (by norm_num)]
    decide
  have hh : pretty_time 7200 = "2.0 h" := by
    unfold pretty_time
    rw [if_neg (by norm_num), if_neg (by norm_num), if_neg (by norm_num),
      renderRound2_eq _ 200 (by norm_num)]
    decide
  refine ⟨hms, hs, hm, hh, ?_, ?_, ?_, ?_⟩
  · intro q hq
    unfold pretty_time
    rw [if_pos hq]
  · intro q hq1 hq2
    unfold pretty_time
    rw [if_neg (by linarith), if_pos hq2]
  · intro q hq1 hq2
    unfold pretty_time
    rw [if_neg (by linarith), if_neg (by linarith), if_pos hq2]
  · intro q hq1
    unfold pretty_time
    rw [if_neg (by linarith), if_neg (by linarith), if_neg (by linarith)]

/-- C6 witness: the branch conjuncts at concrete durations. -/
theorem pretty_time_spec_witness :
    pretty_time (1 / 4) = renderRound2 ((1 / 4 : ℚ) * 1000) ++ " ms" ∧
    pretty_time 30 = renderRound2 (30 : ℚ) ++ " s" ∧
    pretty_time 120 = renderRound2 ((120 : ℚ) / 60) ++ " m" ∧
    pretty_time 9000 = renderRound2 ((9000 : ℚ) / 3600) ++ " h" := by
  have h := pretty_time_spec
  exact ⟨h.2.2.2.2.1 (1 / 4) (by norm_num),
         h.2.2.2.2.2.1 30 (by norm_num) (by norm_num),
         h.2.2.2.2.2.2.1 120 (by norm_num) (by norm_num),
         h.2.2.2.2.2.2.2 9000 (by norm_num)⟩

/-- C8: the scoped timer records the monotonic clock reading at entry as
`start`, its exit computation always yields `interval = tExit - tEnter`
(in particular when the body raised), and the body's outcome propagates
unchanged past the exit hook. -/
theorem timer_exit_always_runs :
    ∀ (α : Type) (tEnter tExit : ℚ) (body : Outcome α),
      (withTimer tEnter tExit body).2.start = tEnter ∧
      (withTimer tEnter tExit body).2.interval = tExit - tEnter ∧
      (withTimer tEnter tExit body).1 = body ∧
      (withTimer tEnter tExit (Outcome.raised : Outcome α)).2.interval
        = tExit - tEnter := by
  intro α tEnter tExit body
  exact ⟨rfl, rfl, rfl, rfl⟩

/-- Unrolling the recording fold: the samples already accumulated stay in
front, and the loop appends the elapsed time of every index other than 1. -/
theorem recordTrials_foldl_eq (e : ℕ → ℚ) (l : List ℕ) (acc : List ℚ) :
    l.foldl (fun acc i => if i ≠ 1 then acc ++ [e i] else acc) acc
      = acc ++ (l.filter (fun i => i != 1)).map e := by
  induction l generalizing acc with
  | nil => simp
  | cons a as ih =>
    by_cases h : a = 1
    · subst h
      simp only [List.foldl_cons, if_neg (not_not_intro rfl), List.filter_cons]
      rw [ih]
      simp
    · simp only [List.foldl_cons, if_pos h, List.filter_cons]
      rw [ih]
      simp [h]

/-- C1: the trial loop iterates `iterations + 1` indices and records the
elapsed time of every trial except exactly the one at loop index 1; with
`iterations = 5`, 6 trials execute, 5 samples are recorded, and the sample
of the first executed trial (index 0) is kept at the head. -/
theorem main_loop_trial_recording :
    ∀ (its : ℕ) (elapsed : ℕ → ℚ),
      (trialIndices its).length = its + 1 ∧
      recordTrials its elapsed
        = ((trialIndices its).filter (fun i => i != 1)).map elapsed ∧
      (recordTrials its elapsed).head? = some (elapsed 0) ∧
      (trialIndices 5).length = 6 ∧
      recordTrials 5 elapsed
        = [elapsed 0, elapsed 2, elapsed 3, elapsed 4, elapsed 5] ∧
      (recordTrials 5 elapsed).length = 5 := by
  intro its elapsed
  have hfold : ∀ k : ℕ, recordTrials k elapsed
      = ((trialIndices k).filter (fun i => i != 1)).map elapsed := by
    intro k
    unfold recordTrials
    rw [recordTrials_foldl_eq]
    simp
  have hhead : (recordTrials its elapsed).head? = some (elapsed 0) := by
    rw [hfold its]
    unfold trialIndices
    rw [List.range_succ_eq_map, List.filter_cons]
    simp
  have h5 : recordTrials 5 elapsed
      = [elapsed 0, elapsed 2, elapsed 3, elapsed 4, elapsed 5] := by
    rw [hfold 5]
    rfl
  refine ⟨?_, hfold its, hhead, rfl, h5, ?_⟩
  · unfold trialIndices
    exact List.length_range (its + 1)
  · rw [h5]
    rfl

/-- C9: for every iteration count and every timing oracle, the recorded
sample list is non-empty, so `sum(times) / len(times)` never divides by
zero; in particular every per-file sample list in `results` is non-empty. -/
theorem recorded_samples_nonempty :
    ∀ (its : ℕ) (elapsed : ℕ → ℚ),
      0 < (recordTrials its elapsed).length ∧
      ((recordTrials its elapsed).length : ℚ) ≠ 0 ∧
      ∀ (files : List (String × ℕ)) (oracle : String → String → ℕ → ℚ)
        (name : String) (ts : List ℚ),
        ts ∈ results files its oracle name → 0 < ts.length := by
  intro its elapsed
  have hpos : ∀ e : ℕ → ℚ, 0 < (recordTrials its e).length := by
    intro e
    unfold recordTrials trialIndices
    rw [recordTrials_foldl_eq]
    rw [List.range_succ_eq_map, List.filter_cons]
    simp
  refine ⟨hpos elapsed, ?_, ?_⟩
  · have h := hpos elapsed
    exact_mod_cast Nat.pos_iff_ne_zero.mp h
  · intro files oracle name ts hts
    unfold results at hts
    obtain ⟨tc, _, rfl⟩ := List.mem_map.mp hts
    exact hpos (oracle tc.1 name)

/-- C9 witness: a concrete one-file, one-strategy instance. -/
theorem recorded_samples_nonempty_witness :
    [(0 : ℚ)] ∈ results [("f", 1)] 0 (fun _ _ _ => 0) "BLAKE3_mv" ∧
      0 < ([(0 : ℚ)] : List ℚ).length := by
  have hmem : [(0 : ℚ)] ∈ results [("f", 1)] 0 (fun _ _ _ => 0) "BLAKE3_mv" := by
    unfold results file_times recordTrials trialIndices
    simp [List.range_succ]
  exact ⟨hmem,
    (recorded_samples_nonempty 0 (fun _ => 0)).2.2 [("f", 1)]
      (fun _ _ _ => 0) "BLAKE3_mv" [(0 : ℚ)] hmem⟩

/-- The `i`-th entry of `averages[name]` is the mean of the samples
recorded for the `i`-th file and strategy `name`. -/
theorem averages_getD (files : List (String × ℕ)) (its : ℕ)
    (elapsed : String → String → ℕ → ℚ) (name : String) (i : ℕ)
    (hi : i < files.length) :
    (averages files its elapsed name).getD i 0
      = list_mean (file_times its elapsed (files.getD i ("", 0)).1 name) := by
  have h1 : i < (averages files its elapsed name).length := by
    unfold averages results
    simpa using hi
  rw [List.getD_eq_getElem _ _ h1]
  unfold averages results
  rw [List.getElem_map, List.getElem_map, List.getD_eq_getElem _ _ hi]

/-- The `i`-th entry of `std_devs[name]` is the standard deviation of the
samples recorded for the `i`-th file and strategy `name`. -/
theorem std_devs_getD (files : List (String × ℕ)) (its : ℕ)
    (elapsed : String → String → ℕ → ℚ) (name : String) (i : ℕ)
    (hi : i < files.length) :
    (std_devs files its elapsed name).getD i 0
      = calculate_std_dev (file_times its elapsed (files.getD i ("", 0)).1 name) := by
  have h1 : i < (std_devs files its elapsed name).length := by
    unfold std_devs results
    simpa using hi
  rw [List.getD_eq_getElem _ _ h1]
  unfold std_devs results
  rw [List.getElem_map, List.getElem_map, List.getD_eq_getElem _ _ hi]

/-- C10: the `i`-th `FileStats` produced corresponds to the `i`-th input
file: it carries that file's path and byte size, and each per-strategy
entry holds the mean and standard deviation of exactly the sample list
recorded for that file and strategy. -/
theorem stats_match_input_files :
    ∀ (files : List (String × ℕ)) (names : List String) (its : ℕ)
      (elapsed : String → String → ℕ → ℚ) (i : ℕ),
      i < files.length →
      (mkStats files names its elapsed).length = files.length ∧
      (mkStats files names its elapsed).getD i ⟨"", 0, []⟩
        = { file_path := (files.getD i ("", 0)).1
            filesize_bytes := (files.getD i ("", 0)).2
            stats := names.map (fun name =>
              (name,
               { name := name
                 avg := list_mean
                   (file_times its elapsed (files.getD i ("", 0)).1 name)
                 std_dev := calculate_std_dev
                   (file_times its elapsed (files.getD i ("", 0)).1 name) })) } := by
  intro files names its elapsed i hi
  have hlen : (mkStats files names its elapsed).length = files.length := by
    unfold mkStats
    simp
  refine ⟨hlen, ?_⟩
  have hi2 : i < (mkStats files names its elapsed).length := by
    rw [hlen]
    exact hi
  rw [List.getD_eq_getElem _ _ hi2]
  unfold mkStats
  rw [List.getElem_map, List.getElem_range]
  simp only [FileStats.mk.injEq]
  refine ⟨trivial, trivial, ?_⟩
  apply List.map_congr_left
  intro name _
  simp only [Prod.mk.injEq, AlgoStats.mk.injEq]
  exact ⟨trivial, trivial, averages_getD files its elapsed name i hi,
    std_devs_getD files its elapsed name i hi⟩

/-- C10 witness: a concrete one-file, one-strategy instance. -/
theorem stats_match_input_files_witness :
    0 < ([(("f", 3) : String × ℕ)] : List (String × ℕ)).length ∧
      (mkStats [("f", 3)] ["BLAKE3_mv"] 0 (fun _ _ _ => 0)).length
        = ([(("f", 3) : String × ℕ)] : List (String × ℕ)).length :=
  ⟨by decide,
   (stats_match_input_files [("f", 3)] ["BLAKE3_mv"] 0 (fun _ _ _ => 0) 0
      (by decide)).1⟩

/-- A failure of the body on any list element aborts the whole map. -/
theorem mapOption_eq_none_of_mem {α β : Type} (f : α → Option β) {l : List α}
    {a : α} (ha : a ∈ l) (hf : f a = none) : mapOption f l = none := by
  induction l with
  | nil => cases ha
  | cons b bs ih =>
    rcases List.mem_cons.mp ha with h | h
    · subst h
      simp [mapOption, hf]
    · cases hfb : f b
      · simp [mapOption, hfb]
      · simp [mapOption, hfb, ih h]

/-- A successful map preserves length. -/
theorem mapOption_length {α β : Type} (f : α → Option β) :
    ∀ {l : List α} {l2 : List β}, mapOption f l = some l2 → l2.length = l.length := by
  intro l
  induction l with
  | nil =>
    intro l2 h
    simp only [mapOption, Option.some.injEq] at h
    rw [← h]
    rfl
  | cons b bs ih =>
    intro l2 h
    cases hfb : f b with
    | none => rw [mapOption, hfb] at h; cases h
    | some v =>
      rw [mapOption, hfb] at h
      cases hbs : mapOption f bs with
      | none => rw [hbs] at h; cases h
      | some vs =>
        rw [hbs] at h
        simp at h
        rw [← h]
        simp [ih hbs]

/-- C7: a missing input file makes size resolution fail, which aborts the
entire run before any stats are produced; and an uncaught failure of any
registered strategy (invoked on every file in every trial) likewise aborts
the run — nothing is caught or retried anywhere. -/
theorem uncaught_failures_abort_run :
    ∀ (getsize : String → Option ℕ)
      (strategies : List (String × (String → Option String))) (its : ℕ)
      (elapsed : String → String → ℕ → ℚ),
      ((∃ file ∈ test_cases, getsize file = none) →
        runBench getsize strategies its elapsed = none) ∧
      (∀ name fn, (name, fn) ∈ strategies → (∀ p, fn p = none) →
        runBench getsize strategies its elapsed = none) := by
  intro getsize strategies its elapsed
  constructor
  · rintro ⟨file, hmem, hnone⟩
    unfold runBench test_cases_with_filesize
    rw [mapOption_eq_none_of_mem _ hmem (by rw [hnone]; rfl)]
    rfl
  · intro name fn hmem hfail
    unfold runBench
    cases htc : test_cases_with_filesize getsize with
    | none => rfl
    | some tcs =>
      have hlen : tcs.length = test_cases.length := mapOption_length _ htc
      have hne : tcs ≠ [] := by
        intro hc
        rw [hc] at hlen
        simp [test_cases] at hlen
      obtain ⟨t, ht⟩ := List.exists_mem_of_ne_nil tcs hne
      have hinner : mapOption (fun s => s.2 t.1) strategies = none :=
        mapOption_eq_none_of_mem _ hmem (hfail t.1)
      have h0 : (0 : ℕ) ∈ trialIndices its := by
        unfold trialIndices
        exact List.mem_range.mpr (by omega)
      have htrial :
          mapOption (fun _ => mapOption (fun s => s.2 t.1) strategies)
            (trialIndices its) = none :=
        mapOption_eq_none_of_mem _ h0 hinner
      have hfile : runTrialsChecked strategies its tcs = none := by
        unfold runTrialsChecked
        exact mapOption_eq_none_of_mem _ ht htrial
      show Option.map
          (fun _ => mkStats tcs (strategies.map Prod.fst) its elapsed)
          (runTrialsChecked strategies its tcs) = none
      rw [hfile]
      rfl

/-- C7 witness: a filesystem with no files aborts the run, and a strategy
that always raises aborts the run. -/
theorem uncaught_failures_abort_run_witness :
    runBench (fun _ => none) [] 0 (fun _ _ _ => 0) = none ∧
      runBench (fun _ => some 1) [("BLAKE3_mv", fun _ => none)] 0
        (fun _ _ _ => 0) = none := by
  constructor
  · exact (uncaught_failures_abort_run (fun _ => none) [] 0 (fun _ _ _ => 0)).1
      ⟨"/media/rhino/invokeai/models/sd-1/embedding/easynegative.safetensors",
       List.Mem.head _, rfl⟩
  · exact (uncaught_failures_abort_run (fun _ => some 1)
      [("BLAKE3_mv", fun _ => none)] 0 (fun _ _ _ => 0)).2
      "BLAKE3_mv" (fun _ => none) (List.Mem.head _) (fun _ => rfl)

end HashBench
